import Mathlib

/-!
Verification of the market-neutral pairs-trading backtest engine (`app.py`).

The embedding models pandas series as Lean lists: a `List ℚ` for a series
that can hold no missing value, and a `List (Option ℚ)` (or `List (Option ℝ)`)
where pandas would produce `NaN` entries, with `none` standing for `NaN`.
Prices, position weights and returns are exact rationals; the only places the
source computes an irrational quantity (the rolling standard deviation inside
the z-score, and the Pearson correlation) are modelled over `ℝ` with
`Real.sqrt`.
-/

namespace MarketNeutral

/-- Elementwise price ratio `prices[ticker1] / prices[ticker2]`
(`ratio = prices[ticker1] / prices[ticker2]` in `calculate_zscore_safe`). -/
def ratioSeries (p1 p2 : List ℚ) : List ℚ := List.zipWith (· / ·) p1 p2

/-- The trailing window of (at most) `w` observations ending at index `t`,
as used by `ratio.rolling(window=w, min_periods=w)`. -/
def trailingWindow (r : List ℚ) (w t : ℕ) : List ℚ := (r.take (t + 1)).drop (t + 1 - w)

/-- Arithmetic mean of a list, as computed by pandas `.mean()`. -/
def meanQ (l : List ℚ) : ℚ := l.sum / (l.length : ℚ)

/-- Sample variance with `ddof = 1`, the default of pandas `.std()` / `.var()`
(the rolling standard deviation of the source is `Real.sqrt` of this). -/
def varQ (l : List ℚ) : ℚ :=
  ((l.map (fun v => (v - meanQ l) ^ 2)).sum) / ((l.length : ℚ) - 1)

/-- Sample covariance with `ddof = 1`, the default of pandas `Series.cov`. -/
def covQ (xs ys : List ℚ) : ℚ :=
  ((List.zipWith (fun a b => (a - meanQ xs) * (b - meanQ ys)) xs ys).sum) /
    ((xs.length : ℚ) - 1)

/-- `calculate_zscore_safe`, success path: rolling mean and standard deviation
of the price ratio with `min_periods = window` (entries with fewer than
`window` observations are `NaN`, i.e. `none`), a zero rolling standard
deviation replaced by `NaN`, and `zscore = (ratio - mean) / std`.  The
standard deviation is the square root of the sample variance, hence the value
lives in `ℝ`; missingness of an entry is decided purely by rational
computations. -/
noncomputable def calculate_zscore (p1 p2 : List ℚ) (w : ℕ) : List (Option ℝ) :=
  (List.range (ratioSeries p1 p2).length).map fun t =>
    if t + 1 < w then none
    else if varQ (trailingWindow (ratioSeries p1 p2) w t) = 0 then none
    else some
      ((((ratioSeries p1 p2).getD t 0 - meanQ (trailingWindow (ratioSeries p1 p2) w t) : ℚ) : ℝ) /
        Real.sqrt ((varQ (trailingWindow (ratioSeries p1 p2) w t) : ℚ) : ℝ))

/-- `calculate_zscore_safe` with its guard: a zero ratio anywhere, or an
all-missing ratio series (which for exact rational prices means an empty
panel, since `(ratio == 0).any()` is false and `ratio.isnull().all()` is true
exactly on the empty series), yields the "Invalid price ratio" error. -/
noncomputable def calculate_zscore_safe (p1 p2 : List ℚ) (w : ℕ) :
    Except String (List (Option ℝ)) :=
  if 0 ∈ ratioSeries p1 p2 ∨ ratioSeries p1 p2 = [] then
    Except.error "Invalid price ratio detected"
  else Except.ok (calculate_zscore p1 p2 w)

/-- The loop body of `generate_signals_safe`: carries the running `position`
(a float that only ever holds `0`, `-1` or `1`, modelled as `ℤ`) and emits one
signal per z-score entry.  `none` models a `NaN` z-score: the emitted signal
is `0` and the carried position is untouched. -/
def signalsAux {α : Type} [LinearOrderedField α] (e x : α) :
    ℤ → List (Option α) → List ℤ
  | _, [] => []
  | pos, none :: rest => 0 :: signalsAux e x pos rest
  | pos, some v :: rest =>
    if pos = 0 then
      (if v > e then (-1 : ℤ) else if v < -e then 1 else 0) ::
        signalsAux e x (if v > e then (-1 : ℤ) else if v < -e then 1 else 0) rest
    else
      (if |v| < x then 0 else pos) :: signalsAux e x (if |v| < x then 0 else pos) rest

/-- `generate_signals_safe`: the left-to-right scan over the z-score series
starting from a flat position. -/
def generate_signals_safe {α : Type} [LinearOrderedField α]
    (zscore : List (Option α)) (entry_threshold exit_threshold : α) : List ℤ :=
  signalsAux entry_threshold exit_threshold 0 zscore

/-- The position states named by the specification. -/
inductive PositionState : Type
  | Flat
  | LongSpread
  | ShortSpread
  deriving DecidableEq

/-- Modelled from the spec's words (transition rules of §4.3), for comparison
with the source scan: the next state from a present z-score value. -/
def specTransition {α : Type} [LinearOrderedField α] (e x : α)
    (s : PositionState) (v : α) : PositionState :=
  match s with
  | PositionState.Flat =>
    if v > e then PositionState.ShortSpread
    else if v < -e then PositionState.LongSpread
    else PositionState.Flat
  | _ => if |v| < x then PositionState.Flat else s

/-- Modelled from the spec's words: the left-to-right scan emitting one
position per timestamp; a missing z-score emits `Flat` and leaves the carried
state unchanged. -/
def specScan {α : Type} [LinearOrderedField α] (e x : α) :
    PositionState → List (Option α) → List PositionState
  | _, [] => []
  | s, none :: rest => PositionState.Flat :: specScan e x s rest
  | s, some v :: rest =>
    specTransition e x s v :: specScan e x (specTransition e x s v) rest

/-- Signal value encoding of a position state
(`ShortSpread` = `-1`, `LongSpread` = `1`, `Flat` = `0`, as in the source). -/
def toSignal : PositionState → ℤ
  | PositionState.Flat => 0
  | PositionState.LongSpread => 1
  | PositionState.ShortSpread => -1

/-- The position weights built in `main`:
`positions = {ticker1: signals * 0.5, ticker2: -signals * 0.5}` (first column). -/
def positionsTicker1 (signals : List ℤ) : List ℚ :=
  signals.map (fun s : ℤ => (s : ℚ) * (1 / 2))

/-- The second column of the positions frame built in `main`. -/
def positionsTicker2 (signals : List ℤ) : List ℚ :=
  signals.map (fun s : ℤ => -(s : ℚ) * (1 / 2))

/-- pandas `Series.pct_change()`: a leading `NaN` followed by
`(p[t] - p[t-1]) / p[t-1]`. -/
def pctChange (p : List ℚ) : List (Option ℚ) :=
  match p with
  | [] => []
  | y :: ys => none :: List.zipWith (fun prev cur => some ((cur - prev) / prev)) (y :: ys) ys

/-- pandas `.shift(1)` on a NaN-free column: a leading `NaN` followed by the
previous entries. -/
def shift1 (w : List ℚ) : List (Option ℚ) :=
  match w with
  | [] => []
  | y :: ys => none :: ((y :: ys).dropLast.map some)

/-- pandas `.diff()` on a NaN-free column: a leading `NaN` followed by
`w[t] - w[t-1]`. -/
def diff1 (w : List ℚ) : List (Option ℚ) :=
  match w with
  | [] => []
  | y :: ys => none :: List.zipWith (fun prev cur => some (cur - prev)) (y :: ys) ys

/-- NaN-absorbing product of two entries (pandas elementwise `*`). -/
def omul (a b : Option ℚ) : Option ℚ := a.bind fun av => b.map fun bv => av * bv

/-- pandas `.sum(axis=1)` over a two-column row: `NaN` entries are skipped
(`skipna=True` is the default), so an all-`NaN` row sums to `0`. -/
def skipnaAdd (a b : Option ℚ) : ℚ := a.getD 0 + b.getD 0

/-- `strategy_returns = (positions.shift(1) * price_returns).sum(axis=1)` from
`run_backtest_safe`, with the two price columns `p1, p2` and the two position
columns `w1, w2`. -/
def strategy_returns (p1 p2 w1 w2 : List ℚ) : List ℚ :=
  List.zipWith skipnaAdd
    (List.zipWith omul (shift1 w1) (pctChange p1))
    (List.zipWith omul (shift1 w2) (pctChange p2))

/-- `turnover = positions.diff().abs().sum(axis=1)` from `run_backtest_safe`. -/
def turnover (w1 w2 : List ℚ) : List ℚ :=
  List.zipWith (fun a b => (a.map (fun v => |v|)).getD 0 + (b.map (fun v => |v|)).getD 0)
    (diff1 w1) (diff1 w2)

/-- `transaction_costs = turnover * (tc_bps / 10000)` from `run_backtest_safe`. -/
def transaction_costs (w1 w2 : List ℚ) (tc_bps : ℚ) : List ℚ :=
  (turnover w1 w2).map (fun t => t * (tc_bps / 10000))

/-- `net_returns = strategy_returns - transaction_costs`: thanks to the
`skipna` row sums neither operand holds a `NaN`, so the result is a plain
rational series. -/
def net_returns (p1 p2 w1 w2 : List ℚ) (tc_bps : ℚ) : List ℚ :=
  List.zipWith (fun s c => s - c) (strategy_returns p1 p2 w1 w2)
    (transaction_costs w1 w2 tc_bps)

/-- Running cumulative product with accumulator `acc` (pandas `.cumprod()`
seeds with the first element, i.e. `acc = 1`). -/
def cumprodAux (acc : ℚ) : List ℚ → List ℚ
  | [] => []
  | f :: fs => (acc * f) :: cumprodAux (acc * f) fs

/-- `equity_curve = (1 + net_returns).cumprod()` from `run_backtest_safe`. -/
def equity_curve (p1 p2 w1 w2 : List ℚ) (tc_bps : ℚ) : List ℚ :=
  cumprodAux 1 ((net_returns p1 p2 w1 w2 tc_bps).map (fun r => 1 + r))

/-- Running maximum continuing from an already-seen maximum `m`. -/
def runningMaxAux (m : ℚ) : List ℚ → List ℚ
  | [] => []
  | y :: ys => max m y :: runningMaxAux (max m y) ys

/-- `running_max = equity_curve.expanding().max()` from `run_backtest_safe`. -/
def running_max (l : List ℚ) : List ℚ :=
  match l with
  | [] => []
  | y :: ys => y :: runningMaxAux y ys

/-- `drawdown = (equity_curve - running_max) / running_max * 100` from
`run_backtest_safe`. -/
def drawdown (p1 p2 w1 w2 : List ℚ) (tc_bps : ℚ) : List ℚ :=
  List.zipWith (fun e m => (e - m) / m * 100)
    (equity_curve p1 p2 w1 w2 tc_bps)
    (running_max (equity_curve p1 p2 w1 w2 tc_bps))

/-- `gross_exposure = positions.abs().sum(axis=1)` from `run_backtest_safe`
(the position columns hold no `NaN`). -/
def gross_exposure (w1 w2 : List ℚ) : List ℚ :=
  List.zipWith (fun a b => |a| + |b|) w1 w2

/-- `net_exposure = positions.sum(axis=1)` from `run_backtest_safe`. -/
def net_exposure (w1 w2 : List ℚ) : List ℚ :=
  List.zipWith (fun a b => a + b) w1 w2

/-- The series bundle of the `results` dictionary returned by
`run_backtest_safe` (the scalar `metrics` block is derived from these and is
modelled separately where a claim needs it). -/
structure BacktestResult : Type where
  returns : List ℚ
  equity : List ℚ
  drawdownSeries : List ℚ
  grossExposure : List ℚ
  netExposure : List ℚ
  turnoverSeries : List ℚ
  deriving DecidableEq

/-- `run_backtest_safe`, error checks and series outputs: `returns_clean =
net_returns.dropna()` is `net_returns` itself (no entry of the modelled
series is missing), the "No valid returns generated" error fires when it is
empty, and the "Insufficient data for annualization" error fires when
`years = len / 252` is zero. -/
def run_backtest_safe (p1 p2 w1 w2 : List ℚ) (tc_bps : ℚ) :
    Except String BacktestResult :=
  if (net_returns p1 p2 w1 w2 tc_bps).length = 0 then
    Except.error "No valid returns generated"
  else if ((net_returns p1 p2 w1 w2 tc_bps).length : ℚ) / 252 = 0 then
    Except.error "Insufficient data for annualization"
  else Except.ok
    { returns := net_returns p1 p2 w1 w2 tc_bps
      equity := equity_curve p1 p2 w1 w2 tc_bps
      drawdownSeries := drawdown p1 p2 w1 w2 tc_bps
      grossExposure := gross_exposure w1 w2
      netExposure := net_exposure w1 w2
      turnoverSeries := turnover w1 w2 }

/-- The terminal value `equity_curve.iloc[-1]` (default `1` is irrelevant for
the nonempty series the backtest produces). -/
def terminal_equity (p1 p2 w1 w2 : List ℚ) (tc_bps : ℚ) : ℚ :=
  (equity_curve p1 p2 w1 w2 tc_bps).getLastD 1

/-- The beta computation of `run_backtest_safe` on the date-aligned return
lists (`s`, `b` are `returns_clean` and the benchmark returns restricted to
their common dates, so their length is the common-date count): the formula is
only entered when strictly more than `20` common dates exist, and only when
the benchmark variance is positive; otherwise the initial `beta = 0` stands. -/
def betaOf (s b : List ℚ) : ℚ :=
  if 20 < s.length then (if 0 < varQ b then covQ s b / varQ b else 0) else 0

/-- Modelled from the spec's words ("beta = cov(strategy, benchmark) /
var(benchmark), with beta = 0 when the benchmark variance is 0"), for
comparison with `betaOf`. -/
def betaSpec (s b : List ℚ) : ℚ :=
  if varQ b = 0 then 0 else covQ s b / varQ b

/-- The correlation computation of `run_backtest_safe` on the date-aligned
return lists: Pearson correlation (pandas `Series.corr`) when strictly more
than `20` common dates exist, the initial `0` otherwise; a zero variance on
either side makes the pandas value `NaN`, modelled as `none`. -/
noncomputable def correlationOf (s b : List ℚ) : Option ℝ :=
  if 20 < s.length then
    (if varQ s = 0 ∨ varQ b = 0 then none
     else some ((covQ s b : ℝ) / (Real.sqrt (varQ s) * Real.sqrt (varQ b))))
  else some 0

lemma mem_zipWith_elim {α β γ : Type} (f : α → β → γ) (l1 : List α) (l2 : List β)
    (z : γ) (hz : z ∈ List.zipWith f l1 l2) :
    ∃ a b, a ∈ l1 ∧ b ∈ l2 ∧ z = f a b := by
  induction l1 generalizing l2 with
  | nil => simp at hz
  | cons a as ih =>
    cases l2 with
    | nil => simp at hz
    | cons b bs =>
      rcases List.mem_cons.mp hz with h | h
      · exact ⟨a, b, List.mem_cons_self _ _, List.mem_cons_self _ _, h⟩
      · obtain ⟨a', b', ha', hb', rfl⟩ := ih bs h
        exact ⟨a', b', List.mem_cons_of_mem _ ha', List.mem_cons_of_mem _ hb', rfl⟩

lemma length_pctChange (p : List ℚ) : (pctChange p).length = p.length := by
  cases p with
  | nil => rfl
  | cons y ys => simp [pctChange]

lemma length_shift1 (w : List ℚ) : (shift1 w).length = w.length := by
  cases w with
  | nil => rfl
  | cons y ys => simp [shift1]

lemma length_diff1 (w : List ℚ) : (diff1 w).length = w.length := by
  cases w with
  | nil => rfl
  | cons y ys => simp [diff1]

lemma length_strategy_returns (p1 p2 w1 w2 : List ℚ)
    (h2 : p2.length = p1.length) (h3 : w1.length = p1.length)
    (h4 : w2.length = p1.length) :
    (strategy_returns p1 p2 w1 w2).length = p1.length := by
  simp [strategy_returns, List.length_zipWith, length_pctChange, length_shift1, h2, h3, h4]

lemma length_turnover (w1 w2 : List ℚ) :
    (turnover w1 w2).length = min w1.length w2.length := by
  simp [turnover, List.length_zipWith, length_diff1]

lemma length_net_returns (p1 p2 w1 w2 : List ℚ) (tc_bps : ℚ)
    (h2 : p2.length = p1.length) (h3 : w1.length = p1.length)
    (h4 : w2.length = p1.length) :
    (net_returns p1 p2 w1 w2 tc_bps).length = p1.length := by
  simp [net_returns, transaction_costs, List.length_zipWith, length_turnover,
    length_strategy_returns p1 p2 w1 w2 h2 h3 h4, h3, h4]

lemma shift1_getElem?_succ (w : List ℚ) (k : ℕ) (v : ℚ)
    (hv : w[k]? = some v) (hk : k + 1 < w.length) :
    (shift1 w)[k + 1]? = some (some v) := by
  cases w with
  | nil => simp at hv
  | cons y ys =>
    simp only [shift1, List.getElem?_cons_succ, List.dropLast_eq_take,
      List.getElem?_map, List.getElem?_take]
    have hlt : k < (y :: ys).length - 1 := by
      simpa using Nat.lt_of_succ_lt_succ (by simpa using hk)
    rw [if_pos hlt, hv]
    rfl

lemma pctChange_getElem?_succ (p : List ℚ) (k : ℕ) (a b : ℚ)
    (ha : p[k]? = some a) (hb : p[k + 1]? = some b) :
    (pctChange p)[k + 1]? = some (some ((b - a) / a)) := by
  cases p with
  | nil => simp at ha
  | cons y ys =>
    have htail : ys[k]? = some b := by
      have := List.getElem?_tail (y :: ys) k
      simpa [this] using hb
    simp only [pctChange, List.getElem?_cons_succ, List.getElem?_zipWith, ha, htail]

/-- C3: the strategy return at timestamp `t ≥ 1` computed by
`run_backtest_safe` is `weight[t-1] * price_return[t]` summed over the two
active tickers, where `price_return[t]` is the simple return
`(p[t] - p[t-1]) / p[t-1]`: the weights enter with a one-period lag, so the
price change at `t` is never multiplied by the weight chosen at `t`. -/
theorem strategy_return_uses_lagged_weights (p1 p2 w1 w2 : List ℚ) (t : ℕ)
    (ht : 1 ≤ t)
    (hw1 : w1.length = p1.length) (hw2 : w2.length = p1.length)
    (hp2 : p2.length = p1.length)
    (a1 b1 a2 b2 v1 v2 : ℚ)
    (ha1 : p1[t - 1]? = some a1) (hb1 : p1[t]? = some b1)
    (ha2 : p2[t - 1]? = some a2) (hb2 : p2[t]? = some b2)
    (hv1 : w1[t - 1]? = some v1) (hv2 : w2[t - 1]? = some v2) :
    (strategy_returns p1 p2 w1 w2)[t]? =
      some (v1 * ((b1 - a1) / a1) + v2 * ((b2 - a2) / a2)) := by
  obtain ⟨k, rfl⟩ : ∃ k, t = k + 1 := ⟨t - 1, by omega⟩
  simp only [Nat.add_sub_cancel] at ha1 ha2 hv1 hv2
  obtain ⟨hk1, -⟩ := List.getElem?_eq_some.mp hb1
  have hA : (List.zipWith omul (shift1 w1) (pctChange p1))[k + 1]? =
      some (some (v1 * ((b1 - a1) / a1))) := by
    rw [List.getElem?_zipWith, shift1_getElem?_succ w1 k v1 hv1 (by omega),
      pctChange_getElem?_succ p1 k a1 b1 ha1 hb1]
    rfl
  have hB : (List.zipWith omul (shift1 w2) (pctChange p2))[k + 1]? =
      some (some (v2 * ((b2 - a2) / a2))) := by
    rw [List.getElem?_zipWith, shift1_getElem?_succ w2 k v2 hv2 (by omega),
      pctChange_getElem?_succ p2 k a2 b2 ha2 hb2]
    rfl
  rw [strategy_returns, List.getElem?_zipWith, hA, hB]
  rfl

/-- Witness for C3 at a concrete input. -/
theorem strategy_return_uses_lagged_weights_witness :
    (strategy_returns [2, 1] [1, 1] [1 / 2, 0] [-1 / 2, 0])[1]? =
      some ((1 / 2 * ((1 - 2) / 2) + -1 / 2 * ((1 - 1) / 1) : ℚ)) := by
  exact strategy_return_uses_lagged_weights [2, 1] [1, 1] [1 / 2, 0] [-1 / 2, 0] 1
    (by norm_num) (by simp) (by simp) (by simp)
    2 1 1 1 (1 / 2) (-1 / 2) (by simp) (by simp) (by simp) (by simp) (by simp) (by simp)

lemma length_cumprodAux (acc : ℚ) (l : List ℚ) :
    (cumprodAux acc l).length = l.length := by
  induction l generalizing acc with
  | nil => rfl
  | cons f fs ih => simp [cumprodAux, ih]

lemma length_equity_curve (p1 p2 w1 w2 : List ℚ) (tc_bps : ℚ) :
    (equity_curve p1 p2 w1 w2 tc_bps).length =
      (net_returns p1 p2 w1 w2 tc_bps).length := by
  simp [equity_curve, length_cumprodAux]

lemma cumprodAux_getElem?_zero (acc : ℚ) (l : List ℚ) :
    (cumprodAux acc l)[0]? = l[0]?.map (fun f => acc * f) := by
  cases l <;> simp [cumprodAux]

lemma runningMaxAux_ge_seed (ys : List ℚ) (m : ℚ) (t : ℕ) (v : ℚ)
    (h : (runningMaxAux m ys)[t]? = some v) : m ≤ v := by
  induction ys generalizing m t with
  | nil => simp [runningMaxAux] at h
  | cons y ys ih =>
    cases t with
    | zero =>
      have : max m y = v := by simpa [runningMaxAux] using h
      exact this ▸ le_max_left m y
    | succ k =>
      have h' : (runningMaxAux (max m y) ys)[k]? = some v := by
        simpa [runningMaxAux] using h
      exact le_trans (le_max_left m y) (ih (max m y) k h')

lemma runningMaxAux_ge_elem (ys : List ℚ) (m : ℚ) (t : ℕ) (v u : ℚ)
    (h : (runningMaxAux m ys)[t]? = some v) (hu : ys[t]? = some u) : u ≤ v := by
  induction ys generalizing m t with
  | nil => simp [runningMaxAux] at h
  | cons y ys ih =>
    cases t with
    | zero =>
      have h1 : max m y = v := by simpa [runningMaxAux] using h
      have h2 : y = u := by simpa using hu
      exact h1 ▸ h2 ▸ le_max_right m y
    | succ k =>
      have h' : (runningMaxAux (max m y) ys)[k]? = some v := by
        simpa [runningMaxAux] using h
      exact ih (max m y) k h' (by simpa using hu)

lemma running_max_ge_head (l : List ℚ) (t : ℕ) (v h0 : ℚ)
    (h : (running_max l)[t]? = some v) (hh : l[0]? = some h0) : h0 ≤ v := by
  cases l with
  | nil => simp [running_max] at h
  | cons y ys =>
    have hy : y = h0 := by simpa using hh
    cases t with
    | zero =>
      have h1 : y = v := by simpa [running_max] using h
      exact le_of_eq (hy.symm.trans h1)
    | succ k =>
      have h' : (runningMaxAux y ys)[k]? = some v := by
        simpa [running_max] using h
      exact hy ▸ runningMaxAux_ge_seed ys y k v h'

lemma le_running_max (l : List ℚ) (t : ℕ) (v u : ℚ)
    (h : (running_max l)[t]? = some v) (hu : l[t]? = some u) : u ≤ v := by
  cases l with
  | nil => simp [running_max] at h
  | cons y ys =>
    cases t with
    | zero =>
      have h1 : y = v := by simpa [running_max] using h
      have h2 : y = u := by simpa using hu
      exact le_of_eq (h2.symm.trans h1)
    | succ k =>
      have h' : (runningMaxAux y ys)[k]? = some v := by
        simpa [running_max] using h
      exact runningMaxAux_ge_elem ys y k v u h' (by simpa using hu)

lemma net_returns_getElem?_zero (p1 p2 w1 w2 : List ℚ) (tc_bps : ℚ)
    (h1 : p1 ≠ []) (h2 : p2 ≠ []) (h3 : w1 ≠ []) (h4 : w2 ≠ []) :
    (net_returns p1 p2 w1 w2 tc_bps)[0]? = some 0 := by
  obtain ⟨a, as, rfl⟩ := List.exists_cons_of_ne_nil h1
  obtain ⟨b, bs, rfl⟩ := List.exists_cons_of_ne_nil h2
  obtain ⟨c, cs, rfl⟩ := List.exists_cons_of_ne_nil h3
  obtain ⟨d, ds, rfl⟩ := List.exists_cons_of_ne_nil h4
  simp [net_returns, strategy_returns, transaction_costs, turnover, pctChange,
    shift1, diff1, omul, skipnaAdd]

lemma equity_curve_getElem?_zero (p1 p2 w1 w2 : List ℚ) (tc_bps : ℚ)
    (h1 : p1 ≠ []) (h2 : p2 ≠ []) (h3 : w1 ≠ []) (h4 : w2 ≠ []) :
    (equity_curve p1 p2 w1 w2 tc_bps)[0]? = some 1 := by
  rw [equity_curve, cumprodAux_getElem?_zero, List.getElem?_map,
    net_returns_getElem?_zero p1 p2 w1 w2 tc_bps h1 h2 h3 h4]
  norm_num

/-- C10: for nonempty, index-aligned inputs the net-return series of
`run_backtest_safe` has one (non-missing) entry per panel row — the undefined
first-period price returns, lagged weights and position changes are absorbed
by the `skipna` row sums — its first entry is exactly `0`, and the equity
curve starts at exactly `1`; hence `dropna` removes nothing and the cleaned
series used for the metrics has the panel's length. -/
theorem net_returns_complete (p1 p2 w1 w2 : List ℚ) (tc_bps : ℚ)
    (h1 : p1 ≠ []) (h2 : p2.length = p1.length) (h3 : w1.length = p1.length)
    (h4 : w2.length = p1.length) :
    (net_returns p1 p2 w1 w2 tc_bps).length = p1.length
    ∧ (net_returns p1 p2 w1 w2 tc_bps)[0]? = some 0
    ∧ (equity_curve p1 p2 w1 w2 tc_bps)[0]? = some 1 := by
  have hp1 : 0 < p1.length := List.length_pos.mpr h1
  have hne2 : p2 ≠ [] := List.length_pos.mp (h2 ▸ hp1)
  have hne3 : w1 ≠ [] := List.length_pos.mp (h3 ▸ hp1)
  have hne4 : w2 ≠ [] := List.length_pos.mp (h4 ▸ hp1)
  exact ⟨length_net_returns p1 p2 w1 w2 tc_bps h2 h3 h4,
    net_returns_getElem?_zero p1 p2 w1 w2 tc_bps h1 hne2 hne3 hne4,
    equity_curve_getElem?_zero p1 p2 w1 w2 tc_bps h1 hne2 hne3 hne4⟩

/-- Witness for C10 at a concrete input. -/
theorem net_returns_complete_witness :
    (net_returns [2, 1] [1, 1] [1 / 2, 0] [-1 / 2, 0] 10).length = 2
    ∧ (net_returns [2, 1] [1, 1] [1 / 2, 0] [-1 / 2, 0] 10)[0]? = some 0
    ∧ (equity_curve [2, 1] [1, 1] [1 / 2, 0] [-1 / 2, 0] 10)[0]? = some 1 := by
  have h := net_returns_complete [2, 1] [1, 1] [1 / 2, 0] [-1 / 2, 0] 10
    (by simp) (by simp) (by simp) (by simp)
  simpa using h

/-- C7: every entry of the drawdown series
`(equity_curve - running_max) / running_max * 100` computed by
`run_backtest_safe` is `≤ 0`: the equity curve starts at `1`, so the running
maximum is always at least `1` and never below the current equity value. -/
theorem drawdown_nonpos (p1 p2 w1 w2 : List ℚ) (tc_bps : ℚ) (t : ℕ) (d : ℚ)
    (hd : (drawdown p1 p2 w1 w2 tc_bps)[t]? = some d) : d ≤ 0 := by
  rw [drawdown, List.getElem?_zipWith] at hd
  cases hE : (equity_curve p1 p2 w1 w2 tc_bps)[t]? with
  | none => rw [hE] at hd; simp at hd
  | some e =>
    cases hM : (running_max (equity_curve p1 p2 w1 w2 tc_bps))[t]? with
    | none => rw [hE, hM] at hd; simp at hd
    | some m =>
      rw [hE, hM] at hd
      have hd' : (e - m) / m * 100 = d := by simpa using hd
      have htE : t < (equity_curve p1 p2 w1 w2 tc_bps).length :=
        (List.getElem?_eq_some.mp hE).1
      have hlen : 0 < (net_returns p1 p2 w1 w2 tc_bps).length := by
        rw [length_equity_curve] at htE; omega
      have hL : 0 < p1.length ∧ 0 < p2.length ∧ 0 < w1.length ∧ 0 < w2.length := by
        have h := hlen
        simp only [net_returns, transaction_costs, strategy_returns,
          List.length_zipWith, List.length_map, length_turnover, length_pctChange,
          length_shift1, length_diff1] at h
        omega
      have h0 : (equity_curve p1 p2 w1 w2 tc_bps)[0]? = some 1 :=
        equity_curve_getElem?_zero p1 p2 w1 w2 tc_bps
          (List.length_pos.mp hL.1) (List.length_pos.mp hL.2.1)
          (List.length_pos.mp hL.2.2.1) (List.length_pos.mp hL.2.2.2)
      have h1m : (1 : ℚ) ≤ m :=
        running_max_ge_head (equity_curve p1 p2 w1 w2 tc_bps) t m 1 hM h0
      have hem : e ≤ m :=
        le_running_max (equity_curve p1 p2 w1 w2 tc_bps) t m e hM hE
      have hmpos : (0 : ℚ) < m := lt_of_lt_of_le one_pos h1m
      have h5 : (e - m) / m ≤ 0 :=
        div_nonpos_of_nonpos_of_nonneg (sub_nonpos.mpr hem) hmpos.le
      have h6 : (e - m) / m * 100 ≤ 0 := by
        have := mul_le_mul_of_nonneg_right h5 (by norm_num : (0 : ℚ) ≤ 100)
        simpa using this
      exact hd' ▸ h6

/-- Witness for C7 at a concrete input. -/
theorem drawdown_nonpos_witness :
    (drawdown [2, 1] [1, 1] [1 / 2, 0] [-1 / 2, 0] 10)[1]? = some (-251 / 10 : ℚ)
    ∧ (-251 / 10 : ℚ) ≤ 0 := by
  have hd : (drawdown [2, 1] [1, 1] [1 / 2, 0] [-1 / 2, 0] 10)[1]? =
      some (-251 / 10 : ℚ) := by
    norm_num [drawdown, equity_curve, running_max, runningMaxAux, cumprodAux,
      net_returns, strategy_returns, transaction_costs, turnover, pctChange,
      shift1, diff1, omul, skipnaAdd, abs_of_pos, abs_of_nonneg, sup_of_le_left,
      max_eq_left]
  exact ⟨hd, drawdown_nonpos _ _ _ _ _ _ _ hd⟩

lemma signalsAux_eq_specScan {α : Type} [LinearOrderedField α] (e x : α)
    (zs : List (Option α)) (s : PositionState) :
    signalsAux e x (toSignal s) zs = (specScan e x s zs).map toSignal := by
  induction zs generalizing s with
  | nil => rfl
  | cons z rest ih =>
    cases z with
    | none =>
      simpa [signalsAux, specScan, toSignal] using ih s
    | some v =>
      cases s with
      | Flat =>
        by_cases h1 : v > e
        · simpa [signalsAux, specScan, specTransition, toSignal, h1] using
            ih PositionState.ShortSpread
        · by_cases h2 : v < -e
          · simpa [signalsAux, specScan, specTransition, toSignal, h1, h2] using
              ih PositionState.LongSpread
          · simpa [signalsAux, specScan, specTransition, toSignal, h1, h2] using
              ih PositionState.Flat
      | LongSpread =>
        by_cases h : |v| < x
        · simpa [signalsAux, specScan, specTransition, toSignal, h] using
            ih PositionState.Flat
        · simpa [signalsAux, specScan, specTransition, toSignal, h] using
            ih PositionState.LongSpread
      | ShortSpread =>
        by_cases h : |v| < x
        · simpa [signalsAux, specScan, specTransition, toSignal, h] using
            ih PositionState.Flat
        · simpa [signalsAux, specScan, specTransition, toSignal, h] using
            ih PositionState.ShortSpread

/-- C2: for every z-score sequence and thresholds `entry_threshold > 0`,
`0 ≤ exit_threshold < entry_threshold`, the output of
`generate_signals_safe` equals the left-to-right scan of the specification's
state machine started in `Flat`: a missing z-score outputs `Flat` leaving the
carried state untouched; from `Flat` the machine enters `ShortSpread` on
`z > entry_threshold` and `LongSpread` on `z < -entry_threshold`; from a
position it exits to `Flat` exactly when `|z| < exit_threshold`, never
flipping directly between the two spread positions. -/
theorem generate_signals_eq_spec_scan {α : Type} [LinearOrderedField α]
    (zs : List (Option α)) (e x : α)
    (he : 0 < e) (hx : 0 ≤ x) (hxe : x < e) :
    generate_signals_safe zs e x = (specScan e x PositionState.Flat zs).map toSignal :=
  signalsAux_eq_specScan e x zs PositionState.Flat

/-- Witness for C2 at a concrete input. -/
theorem generate_signals_eq_spec_scan_witness :
    generate_signals_safe [some (2 : ℚ), some 1, some 0] (3 / 2) (1 / 2)
      = (specScan (3 / 2) (1 / 2) PositionState.Flat
          [some (2 : ℚ), some 1, some 0]).map toSignal
    ∧ generate_signals_safe [some (2 : ℚ), some 1, some 0] (3 / 2) (1 / 2)
      = [-1, -1, 0] := by
  constructor
  · exact generate_signals_eq_spec_scan _ _ _ (by norm_num) (by norm_num) (by norm_num)
  · norm_num [generate_signals_safe, signalsAux, abs_lt]

lemma length_signalsAux {α : Type} [LinearOrderedField α] (e x : α)
    (pos : ℤ) (zs : List (Option α)) :
    (signalsAux e x pos zs).length = zs.length := by
  induction zs generalizing pos with
  | nil => rfl
  | cons z rest ih =>
    cases z with
    | none => simp [signalsAux, ih]
    | some v =>
      by_cases hp : pos = 0 <;> simp [signalsAux, hp, ih]

lemma signalsAux_mem_values {α : Type} [LinearOrderedField α] (e x : α)
    (zs : List (Option α)) (pos : ℤ) (hpos : pos = -1 ∨ pos = 0 ∨ pos = 1)
    (s : ℤ) (hs : s ∈ signalsAux e x pos zs) : s = -1 ∨ s = 0 ∨ s = 1 := by
  induction zs generalizing pos with
  | nil => simp [signalsAux] at hs
  | cons z rest ih =>
    cases z with
    | none =>
      rcases List.mem_cons.mp (by simpa [signalsAux] using hs) with h | h
      · exact Or.inr (Or.inl h)
      · exact ih pos hpos h
    | some v =>
      by_cases hp : pos = 0
      · have hnew : (if v > e then (-1 : ℤ) else if v < -e then 1 else 0) = -1
            ∨ (if v > e then (-1 : ℤ) else if v < -e then 1 else 0) = 0
            ∨ (if v > e then (-1 : ℤ) else if v < -e then 1 else 0) = 1 := by
          split_ifs <;> simp
        rcases List.mem_cons.mp (by simpa [signalsAux, hp] using hs) with h | h
        · subst h; exact hnew
        · exact ih _ hnew h
      · have hnew : (if |v| < x then (0 : ℤ) else pos) = -1
            ∨ (if |v| < x then (0 : ℤ) else pos) = 0
            ∨ (if |v| < x then (0 : ℤ) else pos) = 1 := by
          split_ifs <;> simp [hpos]
        rcases List.mem_cons.mp (by simpa [signalsAux, hp] using hs) with h | h
        · subst h; exact hnew
        · exact ih _ hnew h

lemma signalsAux_getElem?_of_none {α : Type} [LinearOrderedField α] (e x : α)
    (zs : List (Option α)) (pos : ℤ) (t : ℕ) (hz : zs[t]? = some none) :
    (signalsAux e x pos zs)[t]? = some 0 := by
  induction zs generalizing pos t with
  | nil => simp at hz
  | cons z rest ih =>
    cases t with
    | zero =>
      have hzn : z = none := by simpa using hz
      subst hzn
      simp [signalsAux]
    | succ k =>
      have hz' : rest[k]? = some none := by simpa using hz
      cases z with
      | none => simpa [signalsAux] using ih pos k hz'
      | some v =>
        by_cases hp : pos = 0 <;> simpa [signalsAux, hp] using ih _ k hz'

/-- C9: whenever the generated signal at a timestamp is nonzero
(position ≠ Flat), the per-ticker weights `signal * 0.5` and
`-signal * 0.5` built in `main` give a net exposure
(`positions.sum(axis=1)`) of exactly `0` and a gross exposure
(`positions.abs().sum(axis=1)`) of exactly `1`. -/
theorem neutrality_invariant {α : Type} [LinearOrderedField α]
    (zs : List (Option α)) (e x : α) (t : ℕ) (s : ℤ)
    (hs : (generate_signals_safe zs e x)[t]? = some s) (hne : s ≠ 0) :
    (net_exposure (positionsTicker1 (generate_signals_safe zs e x))
      (positionsTicker2 (generate_signals_safe zs e x)))[t]? = some 0
    ∧ (gross_exposure (positionsTicker1 (generate_signals_safe zs e x))
        (positionsTicker2 (generate_signals_safe zs e x)))[t]? = some 1 := by
  have hmem : s ∈ generate_signals_safe zs e x := List.getElem?_mem hs
  have hvals : s = -1 ∨ s = 0 ∨ s = 1 :=
    signalsAux_mem_values e x zs 0 (Or.inr (Or.inl rfl)) s hmem
  have hs1 : s = -1 ∨ s = 1 := by
    rcases hvals with h | h | h
    · exact Or.inl h
    · exact absurd h hne
    · exact Or.inr h
  constructor
  · rw [net_exposure, List.getElem?_zipWith, positionsTicker1, positionsTicker2,
      List.getElem?_map, List.getElem?_map, hs]
    have : (s : ℚ) * (1 / 2) + -(s : ℚ) * (1 / 2) = 0 := by ring
    simp [this]
  · rw [gross_exposure, List.getElem?_zipWith, positionsTicker1, positionsTicker2,
      List.getElem?_map, List.getElem?_map, hs]
    rcases hs1 with h | h <;> subst h <;> norm_num [abs_of_pos]

/-- Witness for C9 at a concrete input. -/
theorem neutrality_invariant_witness :
    (net_exposure (positionsTicker1 (generate_signals_safe [some (2 : ℚ)] (3 / 2) (1 / 2)))
      (positionsTicker2 (generate_signals_safe [some (2 : ℚ)] (3 / 2) (1 / 2))))[0]? = some 0
    ∧ (gross_exposure (positionsTicker1 (generate_signals_safe [some (2 : ℚ)] (3 / 2) (1 / 2)))
        (positionsTicker2 (generate_signals_safe [some (2 : ℚ)] (3 / 2) (1 / 2))))[0]? = some 1 := by
  refine neutrality_invariant [some (2 : ℚ)] (3 / 2) (1 / 2) 0 (-1) ?_ (by decide)
  norm_num [generate_signals_safe, signalsAux]

lemma calculate_zscore_warmup (p1 p2 : List ℚ) (w t : ℕ) (ht : t + 1 < w)
    (z : Option ℝ) (hz : (calculate_zscore p1 p2 w)[t]? = some z) : z = none := by
  rw [calculate_zscore, List.getElem?_map] at hz
  by_cases hlt : t < (ratioSeries p1 p2).length
  · rw [List.getElem?_range hlt] at hz
    have hz' : (if t + 1 < w then (none : Option ℝ)
        else if varQ (trailingWindow (ratioSeries p1 p2) w t) = 0 then none
        else some
          ((((ratioSeries p1 p2).getD t 0 -
              meanQ (trailingWindow (ratioSeries p1 p2) w t) : ℚ) : ℝ) /
            Real.sqrt ((varQ (trailingWindow (ratioSeries p1 p2) w t) : ℚ) : ℝ))) = z := by
      simpa using hz
    rw [if_pos ht] at hz'
    exact hz'.symm
  · rw [List.getElem?_eq_none (by simpa using Nat.le_of_not_lt hlt)] at hz
    simp at hz

/-- C8: if `calculate_zscore_safe` succeeds for a rolling window `w`, every
one of the first `w - 1` entries of the returned z-score series is missing
(the rolling mean and standard deviation use `min_periods = w`), and the
signal emitted by `generate_signals_safe` at every one of those warm-up
timestamps is `0` (`Flat`) for any thresholds: no position is opened before
the window is full. -/
theorem warmup_invariant (p1 p2 : List ℚ) (w : ℕ) (e x : ℝ)
    (z : List (Option ℝ)) (hz : calculate_zscore_safe p1 p2 w = Except.ok z)
    (t : ℕ) (ht : t + 1 < w) :
    (∀ zt, z[t]? = some zt → zt = none)
    ∧ (∀ s, (generate_signals_safe z e x)[t]? = some s → s = 0) := by
  have hz' : z = calculate_zscore p1 p2 w := by
    by_cases hc : 0 ∈ ratioSeries p1 p2 ∨ ratioSeries p1 p2 = []
    · rw [calculate_zscore_safe, if_pos hc] at hz
      exact absurd hz (by simp)
    · rw [calculate_zscore_safe, if_neg hc] at hz
      simpa using hz.symm
  subst hz'
  refine ⟨fun zt hzt => calculate_zscore_warmup p1 p2 w t ht zt hzt, fun s hs => ?_⟩
  have htlen : t < (calculate_zscore p1 p2 w).length := by
    have h1 := (List.getElem?_eq_some.mp hs).1
    rwa [generate_signals_safe, length_signalsAux] at h1
  obtain ⟨zt, hzt⟩ : ∃ zt, (calculate_zscore p1 p2 w)[t]? = some zt :=
    ⟨_, List.getElem?_eq_getElem htlen⟩
  have hznone : zt = none := calculate_zscore_warmup p1 p2 w t ht zt hzt
  subst hznone
  have h0 : (generate_signals_safe (calculate_zscore p1 p2 w) e x)[t]? = some 0 :=
    signalsAux_getElem?_of_none e x _ 0 t hzt
  rw [h0] at hs
  simpa using hs.symm

/-- Witness for C8 at a concrete input. -/
theorem warmup_invariant_witness :
    (∀ zt, (calculate_zscore [1, 1] [1, 2] 60)[0]? = some zt → zt = none)
    ∧ (∀ s, (generate_signals_safe (calculate_zscore [1, 1] [1, 2] 60)
        (3 / 2 : ℝ) (1 / 2))[0]? = some s → s = 0) := by
  have hcond : ¬(0 ∈ ratioSeries [1, 1] [1, 2] ∨ ratioSeries [1, 1] [1, 2] = []) :=
    not_or.mpr ⟨by norm_num [ratioSeries], by simp [ratioSeries]⟩
  exact warmup_invariant [1, 1] [1, 2] 60 (3 / 2) (1 / 2) _
    (by rw [calculate_zscore_safe, if_neg hcond]) 0 (by norm_num)

/-- C5 (amended): `run_backtest_safe` returns the "No valid returns
generated" failure exactly when the price panel is empty: the `skipna` row
sums leave no missing entry in the net-return series, so `dropna` never
shrinks it and the check `len(returns_clean) == 0` fires only for an empty
panel.  In particular a nonempty panel shorter than the rolling window — all
z-scores missing, all positions flat — yields all-zero net returns and the
backtest succeeds instead of failing. -/
theorem empty_returns_error_iff (p1 p2 w1 w2 : List ℚ) (tc_bps : ℚ)
    (h2 : p2.length = p1.length) (h3 : w1.length = p1.length)
    (h4 : w2.length = p1.length) :
    run_backtest_safe p1 p2 w1 w2 tc_bps = Except.error "No valid returns generated"
      ↔ p1 = [] := by
  have hlen := length_net_returns p1 p2 w1 w2 tc_bps h2 h3 h4
  constructor
  · intro h
    by_contra hne
    have hpos : 0 < p1.length := List.length_pos.mpr hne
    have hc1 : ¬((net_returns p1 p2 w1 w2 tc_bps).length = 0) := by omega
    have hc2 : ¬(((net_returns p1 p2 w1 w2 tc_bps).length : ℚ) / 252 = 0) := by
      rw [hlen]
      exact div_ne_zero (Nat.cast_ne_zero.mpr (by omega)) (by norm_num)
    rw [run_backtest_safe, if_neg hc1, if_neg hc2] at h
    simp at h
  · intro h
    subst h
    have h0 : (net_returns [] p2 w1 w2 tc_bps).length = 0 := by
      rw [hlen]; rfl
    rw [run_backtest_safe, if_pos h0]

/-- Witness for C5 at a concrete input. -/
theorem empty_returns_error_iff_witness :
    (run_backtest_safe [1] [1] [0] [0] 5 = Except.error "No valid returns generated"
      ↔ ([1] : List ℚ) = [])
    ∧ ([1] : List ℚ) ≠ [] :=
  ⟨empty_returns_error_iff [1] [1] [0] [0] 5 (by simp) (by simp) (by simp), by simp⟩

/-- C5 (counterexample): a nonempty two-row panel run through the whole
pipeline with rolling window `60` (window longer than the sample, so every
z-score is missing and every position is `Flat`) does NOT make the backtest
fail with the "No valid returns generated" error: the net returns are all
zero, not missing, so the cleaned series is nonempty. -/
theorem empty_returns_error_counterexample :
    run_backtest_safe [1, 2] [1, 1]
      (positionsTicker1 (generate_signals_safe (calculate_zscore [1, 2] [1, 1] 60)
        (3 / 2 : ℝ) (1 / 2)))
      (positionsTicker2 (generate_signals_safe (calculate_zscore [1, 2] [1, 1] 60)
        (3 / 2 : ℝ) (1 / 2))) 10
      ≠ Except.error "No valid returns generated" := by
  have hz : calculate_zscore [1, 2] [1, 1] 60 = [none, none] := by
    norm_num [calculate_zscore, ratioSeries, List.range_succ]
  rw [hz]
  have hs : generate_signals_safe ([none, none] : List (Option ℝ)) (3 / 2) (1 / 2)
      = [0, 0] := by
    simp [generate_signals_safe, signalsAux]
  rw [hs]
  have hp : positionsTicker1 [0, 0] = [0, 0] ∧ positionsTicker2 [0, 0] = [0, 0] := by
    norm_num [positionsTicker1, positionsTicker2]
  rw [hp.1, hp.2]
  have hlen : (net_returns [1, 2] [1, 1] [0, 0] [0, 0] 10).length = 2 := by
    norm_num [net_returns, strategy_returns, transaction_costs, turnover,
      pctChange, shift1, diff1, omul, skipnaAdd]
  rw [run_backtest_safe, if_neg (by rw [hlen]; norm_num),
    if_neg (by rw [hlen]; norm_num)]
  simp

lemma varQ_nonneg (l : List ℚ) : 0 ≤ varQ l := by
  rcases l with _ | ⟨a, l'⟩
  · simp [varQ]
  · apply div_nonneg
    · refine List.sum_nonneg ?_
      intro v hv
      obtain ⟨u, -, rfl⟩ := List.mem_map.mp hv
      positivity
    · have h1 : (1 : ℚ) ≤ ((a :: l').length : ℚ) := by
        have : 1 ≤ (a :: l').length := by simp
        exact_mod_cast this
      linarith

/-- C4 (amended): on the date-aligned return lists, when the common-date
count is 20 or fewer, beta and correlation are both left at their default 0
(and no fault is raised — the computation is total); only when the count is
strictly greater than 20 does beta equal cov(strategy, benchmark) /
var(benchmark) (0 when the benchmark variance is 0) and the correlation
equal the Pearson correlation over the aligned dates (when both variances
are nonzero).  The claim's "not fewer than 20, so in particular exactly 20"
branch is wrong: the source tests `len(common_dates) > 20`. -/
theorem beta_correlation_threshold (s b : List ℚ) (hlen : s.length = b.length) :
    (s.length ≤ 20 → betaOf s b = 0 ∧ correlationOf s b = some 0)
    ∧ (20 < s.length → betaOf s b = betaSpec s b
        ∧ (varQ s ≠ 0 → varQ b ≠ 0 →
            correlationOf s b =
              some ((covQ s b : ℝ) /
                (Real.sqrt (varQ s) * Real.sqrt (varQ b))))) := by
  constructor
  · intro hle
    rw [betaOf, if_neg (by omega), correlationOf, if_neg (by omega)]
    exact ⟨rfl, rfl⟩
  · intro hgt
    refine ⟨?_, fun hs hb => ?_⟩
    · rw [betaOf, if_pos hgt, betaSpec]
      by_cases hv : varQ b = 0
      · rw [if_pos hv, if_neg (by rw [hv]; exact lt_irrefl 0)]
      · rw [if_neg hv, if_pos (lt_of_le_of_ne (varQ_nonneg b) (Ne.symm hv))]
    · rw [correlationOf, if_pos hgt, if_neg (by push_neg; exact ⟨hs, hb⟩)]

/-- Witness for C4 at a concrete input. -/
theorem beta_correlation_threshold_witness :
    (([1, 2] : List ℚ).length ≤ 20 →
      betaOf [1, 2] [1, 2] = 0 ∧ correlationOf [1, 2] [1, 2] = some 0)
    ∧ (20 < ([1, 2] : List ℚ).length →
        betaOf [1, 2] [1, 2] = betaSpec [1, 2] [1, 2]
        ∧ (varQ [1, 2] ≠ 0 → varQ [1, 2] ≠ 0 →
            correlationOf [1, 2] [1, 2] =
              some ((covQ [1, 2] [1, 2] : ℝ) /
                (Real.sqrt (varQ [1, 2]) * Real.sqrt (varQ [1, 2])))))
    ∧ betaOf [1, 2] [1, 2] = 0 := by
  have h := beta_correlation_threshold [1, 2] [1, 2] rfl
  exact ⟨h.1, h.2, (h.1 (by norm_num)).1⟩

/-- C4 (counterexample): two identical aligned return lists with exactly 20
common dates and positive benchmark variance: the source's beta stays at the
default 0 even though cov/var = 1, refuting the claim's assertion that the
cov/var formula applies when the common-date count is exactly 20. -/
theorem beta_threshold_counterexample :
    betaOf [0, 1, 0, 1, 0, 1, 0, 1, 0, 1, 0, 1, 0, 1, 0, 1, 0, 1, 0, 1]
        [0, 1, 0, 1, 0, 1, 0, 1, 0, 1, 0, 1, 0, 1, 0, 1, 0, 1, 0, 1] = 0
    ∧ varQ [0, 1, 0, 1, 0, 1, 0, 1, 0, 1, 0, 1, 0, 1, 0, 1, 0, 1, 0, 1] ≠ 0
    ∧ covQ [0, 1, 0, 1, 0, 1, 0, 1, 0, 1, 0, 1, 0, 1, 0, 1, 0, 1, 0, 1]
          [0, 1, 0, 1, 0, 1, 0, 1, 0, 1, 0, 1, 0, 1, 0, 1, 0, 1, 0, 1]
        / varQ [0, 1, 0, 1, 0, 1, 0, 1, 0, 1, 0, 1, 0, 1, 0, 1, 0, 1, 0, 1] = 1 := by
  refine ⟨by rw [betaOf, if_neg (by norm_num)], ?_, ?_⟩
  · norm_num [varQ, meanQ]
  · norm_num [varQ, covQ, meanQ]

lemma turnover_nonneg (w1 w2 : List ℚ) : ∀ τ ∈ turnover w1 w2, 0 ≤ τ := by
  intro τ hτ
  obtain ⟨a, b, -, -, rfl⟩ := mem_zipWith_elim _ _ _ τ hτ
  cases a <;> cases b <;> simp <;> positivity

lemma cumprodAux_getLastD (acc : ℚ) (l : List ℚ) :
    (cumprodAux acc l).getLastD acc = acc * l.prod := by
  induction l generalizing acc with
  | nil => simp [cumprodAux]
  | cons f fs ih =>
    rw [cumprodAux, List.getLastD_cons, ih (acc * f), List.prod_cons]
    ring

lemma terminal_equity_eq_prod (p1 p2 w1 w2 : List ℚ) (tc_bps : ℚ) :
    terminal_equity p1 p2 w1 w2 tc_bps =
      ((net_returns p1 p2 w1 w2 tc_bps).map (fun r => 1 + r)).prod := by
  rw [terminal_equity, equity_curve, cumprodAux_getLastD, one_mul]

lemma netmap_eq (p1 p2 w1 w2 : List ℚ) (k : ℚ) :
    (net_returns p1 p2 w1 w2 k).map (fun r => 1 + r)
      = List.zipWith (fun sr τ => 1 + (sr - τ * (k / 10000)))
          (strategy_returns p1 p2 w1 w2) (turnover w1 w2) := by
  rw [net_returns, transaction_costs, List.zipWith_map_right, List.map_zipWith]

lemma zipProd_eq_of_sum_zero (S T : List ℚ) (k1 k2 : ℚ)
    (hT : ∀ τ ∈ T, 0 ≤ τ) (hsum : T.sum = 0) :
    (List.zipWith (fun sr τ => 1 + (sr - τ * k2)) S T).prod
      = (List.zipWith (fun sr τ => 1 + (sr - τ * k1)) S T).prod := by
  induction S generalizing T with
  | nil => simp
  | cons sr S' ih =>
    cases T with
    | nil => simp
    | cons τ T' =>
      have hτ : 0 ≤ τ := hT τ (List.mem_cons_self _ _)
      have hT' : ∀ u ∈ T', 0 ≤ u := fun u hu => hT u (List.mem_cons_of_mem _ hu)
      have hsum' : T'.sum ≥ 0 := List.sum_nonneg hT'
      have hτ0 : τ = 0 ∧ T'.sum = 0 := by
        rw [List.sum_cons] at hsum
        constructor <;> linarith
      rw [List.zipWith_cons_cons, List.zipWith_cons_cons, List.prod_cons,
        List.prod_cons, hτ0.1, ih T' hT' hτ0.2]
      ring

lemma zipProd_lt (S T : List ℚ) (k1 k2 : ℚ) (hk : k1 < k2)
    (hT : ∀ τ ∈ T, 0 ≤ τ) (hlen : S.length = T.length) (hsum : T.sum ≠ 0)
    (hpos : ∀ f ∈ List.zipWith (fun sr τ => 1 + (sr - τ * k2)) S T, 0 < f) :
    (List.zipWith (fun sr τ => 1 + (sr - τ * k2)) S T).prod
      < (List.zipWith (fun sr τ => 1 + (sr - τ * k1)) S T).prod := by
  induction S generalizing T with
  | nil =>
    exfalso
    cases T with
    | nil => exact hsum rfl
    | cons τ T' => simp at hlen
  | cons sr S' ih =>
    cases T with
    | nil => exact absurd rfl hsum
    | cons τ T' =>
      have hτ : 0 ≤ τ := hT τ (List.mem_cons_self _ _)
      have hT' : ∀ u ∈ T', 0 ≤ u := fun u hu => hT u (List.mem_cons_of_mem _ hu)
      have hlen' : S'.length = T'.length := by simpa using hlen
      have hhead : 0 < 1 + (sr - τ * k2) :=
        hpos _ (by rw [List.zipWith_cons_cons]; exact List.mem_cons_self _ _)
      have htail : ∀ f ∈ List.zipWith (fun a b => 1 + (a - b * k2)) S' T', 0 < f :=
        fun f hf => hpos f (by rw [List.zipWith_cons_cons]; exact List.mem_cons_of_mem _ hf)
      have htailpos : 0 < (List.zipWith (fun a b => 1 + (a - b * k2)) S' T').prod :=
        List.prod_pos htail
      have hheads : 1 + (sr - τ * k2) ≤ 1 + (sr - τ * k1) := by nlinarith
      rw [List.zipWith_cons_cons, List.zipWith_cons_cons, List.prod_cons, List.prod_cons]
      by_cases hτ0 : τ = 0
      · have hsum' : T'.sum ≠ 0 := by
          rw [List.sum_cons, hτ0, zero_add] at hsum
          exact hsum
        have htlt := ih T' hT' hlen' hsum' htail
        have hheq : 1 + (sr - τ * k2) = 1 + (sr - τ * k1) := by rw [hτ0]; ring
        calc (1 + (sr - τ * k2)) * (List.zipWith (fun a b => 1 + (a - b * k2)) S' T').prod
            < (1 + (sr - τ * k2)) * (List.zipWith (fun a b => 1 + (a - b * k1)) S' T').prod :=
              mul_lt_mul_of_pos_left htlt hhead
          _ = (1 + (sr - τ * k1)) * (List.zipWith (fun a b => 1 + (a - b * k1)) S' T').prod := by
              rw [hheq]
      · have hτpos : 0 < τ := lt_of_le_of_ne hτ (Ne.symm hτ0)
        have hhlt : 1 + (sr - τ * k2) < 1 + (sr - τ * k1) := by nlinarith
        have htle : (List.zipWith (fun a b => 1 + (a - b * k2)) S' T').prod
            ≤ (List.zipWith (fun a b => 1 + (a - b * k1)) S' T').prod := by
          by_cases hs' : T'.sum = 0
          · exact le_of_eq (zipProd_eq_of_sum_zero S' T' k1 k2 hT' hs')
          · exact le_of_lt (ih T' hT' hlen' hs' htail)
        calc (1 + (sr - τ * k2)) * (List.zipWith (fun a b => 1 + (a - b * k2)) S' T').prod
            < (1 + (sr - τ * k1)) * (List.zipWith (fun a b => 1 + (a - b * k2)) S' T').prod :=
              mul_lt_mul_of_pos_right hhlt htailpos
          _ ≤ (1 + (sr - τ * k1)) * (List.zipWith (fun a b => 1 + (a - b * k1)) S' T').prod :=
              mul_le_mul_of_nonneg_left htle (le_trans hhead.le hheads)

/-- C6 (amended): with the panel and position path fixed, doubling a positive
`transaction_cost_bps` exactly doubles the transaction cost at every
timestamp and hence the cumulative transaction cost (this doubling holds for
any cost rate); provided every per-period growth factor `1 + net_return`
remains positive at the doubled cost, the terminal equity value is unchanged
when total turnover is `0` and strictly decreases when total turnover is
nonzero.  (The claim as stated fails when `transaction_cost_bps = 0` — the
terminal value is then unchanged despite nonzero turnover — and when a growth
factor turns negative, where higher costs can raise the terminal value.) -/
theorem doubling_cost (p1 p2 w1 w2 : List ℚ) (c : ℚ) (hc : 0 < c)
    (h2 : p2.length = p1.length) (h3 : w1.length = p1.length)
    (h4 : w2.length = p1.length)
    (hpos : ∀ f ∈ (net_returns p1 p2 w1 w2 (2 * c)).map (fun r => 1 + r), 0 < f) :
    transaction_costs w1 w2 (2 * c) = (transaction_costs w1 w2 c).map (fun v => 2 * v)
    ∧ (transaction_costs w1 w2 (2 * c)).sum = 2 * (transaction_costs w1 w2 c).sum
    ∧ ((turnover w1 w2).sum = 0 →
        terminal_equity p1 p2 w1 w2 (2 * c) = terminal_equity p1 p2 w1 w2 c)
    ∧ ((turnover w1 w2).sum ≠ 0 →
        terminal_equity p1 p2 w1 w2 (2 * c) < terminal_equity p1 p2 w1 w2 c) := by
  have hdouble : transaction_costs w1 w2 (2 * c)
      = (transaction_costs w1 w2 c).map (fun v => 2 * v) := by
    rw [transaction_costs, transaction_costs, List.map_map]
    refine List.map_congr_left ?_
    intro τ hτ
    simp only [Function.comp]
    ring
  have hpos' : ∀ f ∈ List.zipWith (fun sr τ => 1 + (sr - τ * (2 * c / 10000)))
      (strategy_returns p1 p2 w1 w2) (turnover w1 w2), 0 < f := by
    rw [← netmap_eq]
    exact hpos
  have hlenST : (strategy_returns p1 p2 w1 w2).length = (turnover w1 w2).length := by
    rw [length_strategy_returns p1 p2 w1 w2 h2 h3 h4, length_turnover, h3, h4]
    simp
  refine ⟨hdouble, ?_, fun hz => ?_, fun hnz => ?_⟩
  · rw [hdouble]
    have := List.sum_map_mul_left (transaction_costs w1 w2 c) (fun v => v) 2
    simpa using this
  · rw [terminal_equity_eq_prod, terminal_equity_eq_prod, netmap_eq, netmap_eq]
    exact zipProd_eq_of_sum_zero _ _ (c / 10000) (2 * c / 10000)
      (turnover_nonneg w1 w2) hz
  · rw [terminal_equity_eq_prod, terminal_equity_eq_prod, netmap_eq, netmap_eq]
    exact zipProd_lt _ _ (c / 10000) (2 * c / 10000) (by linarith)
      (turnover_nonneg w1 w2) hlenST hnz hpos'

/-- Witness for C6 at a concrete input. -/
theorem doubling_cost_witness :
    transaction_costs [0, 1 / 2] [0, -1 / 2] (2 * 10)
      = (transaction_costs [0, 1 / 2] [0, -1 / 2] 10).map (fun v => 2 * v)
    ∧ (transaction_costs [0, 1 / 2] [0, -1 / 2] (2 * 10)).sum
      = 2 * (transaction_costs [0, 1 / 2] [0, -1 / 2] 10).sum
    ∧ ((turnover [0, 1 / 2] [0, -1 / 2]).sum = 0 →
        terminal_equity [1, 2] [1, 1] [0, 1 / 2] [0, -1 / 2] (2 * 10)
          = terminal_equity [1, 2] [1, 1] [0, 1 / 2] [0, -1 / 2] 10)
    ∧ ((turnover [0, 1 / 2] [0, -1 / 2]).sum ≠ 0 →
        terminal_equity [1, 2] [1, 1] [0, 1 / 2] [0, -1 / 2] (2 * 10)
          < terminal_equity [1, 2] [1, 1] [0, 1 / 2] [0, -1 / 2] 10) := by
  refine doubling_cost [1, 2] [1, 1] [0, 1 / 2] [0, -1 / 2] 10 (by norm_num)
    (by simp) (by simp) (by simp) ?_
  norm_num [net_returns, strategy_returns, transaction_costs, turnover, pctChange,
    shift1, diff1, omul, skipnaAdd, List.forall_mem_cons, abs_of_pos, abs_of_nonneg,
    abs_of_nonpos]

/-- C6 (counterexample): the claim as stated fails on the source model: with
`transaction_cost_bps = 0` and nonzero turnover, doubling the cost leaves the
terminal equity unchanged (so "unchanged exactly when total turnover is 0" is
wrong), and with a cost rate large enough to push a growth factor negative
(`20000`-unit position swings at 1 bps), doubling the cost strictly
*increases* the terminal equity. -/
theorem doubling_cost_counterexample :
    (terminal_equity [1, 2] [1, 1] [0, 1 / 2] [0, -1 / 2] (2 * 0)
        = terminal_equity [1, 2] [1, 1] [0, 1 / 2] [0, -1 / 2] 0
      ∧ (turnover [0, 1 / 2] [0, -1 / 2]).sum ≠ 0)
    ∧ terminal_equity [1, 1, 1] [1, 1, 1] [0, 20000, 0] [0, 0, 0] 1
        < terminal_equity [1, 1, 1] [1, 1, 1] [0, 20000, 0] [0, 0, 0] (2 * 1) := by
  refine ⟨⟨by norm_num, ?_⟩, ?_⟩
  · norm_num [turnover, diff1, abs_of_pos, abs_of_nonneg, abs_of_nonpos]
  · norm_num [terminal_equity, equity_curve, cumprodAux, net_returns,
      strategy_returns, transaction_costs, turnover, pctChange, shift1, diff1,
      omul, skipnaAdd, abs_of_pos, abs_of_nonneg, abs_of_nonpos]

/-- C1 (counterexample): on the z-score sequence `[0, 2.0, 0.3, 0.0]` with
`entry_threshold = 1.5` and `exit_threshold = 0.5` the source scan does NOT
produce the claimed signal sequence `[0, -1, -1, 0]`: at the third timestamp
`|0.3| < 0.5` already holds, so the position exits there. -/
theorem signals_tie_break_counterexample :
    generate_signals_safe [some (0 : ℚ), some 2, some (3 / 10), some 0]
      (3 / 2) (1 / 2) ≠ [0, -1, -1, 0] := by
  norm_num [generate_signals_safe, signalsAux, abs_lt]

/-- C1 (amended): on the z-score sequence `[0, 2.0, 0.3, 0.0]` with
`entry_threshold = 1.5` and `exit_threshold = 0.5` the scan yields the
position sequence `[Flat, ShortSpread, Flat, Flat]` (signal values
`[0, -1, 0, 0]`): it enters on the breach at the second entry and exits at
the third entry, where `|0.3| < 0.5` first holds. -/
theorem signals_tie_break_amended :
    generate_signals_safe [some (0 : ℚ), some 2, some (3 / 10), some 0]
      (3 / 2) (1 / 2) = [0, -1, 0, 0] := by
  norm_num [generate_signals_safe, signalsAux, abs_lt]

end MarketNeutral
